import Mathlib

/-!
Verification development for the `isochroner` package (file
`isochroner/isochroner.py`).

The Python code is shallowly embedded as executable Lean definitions:

* numbers are modelled as `ℚ` (the claims are about the algorithms, not
  about floating-point rounding);
* a boundary point `[lat, lng]` is a pair `ℚ × ℚ`;
* Python exceptions are modelled with `Except PyError`;
* `statistics.stdev` computes `√(sample variance)`; the code only ever uses
  it inside the comparison `|mean - x| / stdev < t`, which (for
  `stdev = √v > 0`) is equivalent over ℝ to `0 < t ∧ (mean - x)² < t² · v`,
  so the embedding keeps the sample variance `v` and uses the square-free
  equivalent comparison, avoiding irrational square roots;
* dataframes are modelled as lists of records, the output CSV file as a
  list of output rows (value round-tripping through CSV text is modelled as
  the identity, which is faithful for integer identifiers);
* the routing module `isocronut` is part of the repository but is not in
  the sources provided; it is modelled from the spec as an opaque function
  parameter (see `Route`).
-/

/-- Python exceptions that the embedded code can raise:
`statistics.StatisticsError` (from `stdev` on fewer than two data points),
`ZeroDivisionError` (division by a zero standard deviation), and
pandas' `ValueError` (length-mismatched column assignment, `range` step 0). -/
inductive PyError
  | statError
  | divByZero
  | valueError
deriving DecidableEq, Repr

/-- A value of a dataframe column used as matching identifier: either a
Python `int` or a `str`. -/
inductive PyScalar
  | int (z : ℤ)
  | str (s : String)
deriving DecidableEq, Repr

deriving instance DecidableEq for Except

/-- Left-to-right effectful map over a list in the `Except` monad; first
error aborts.  This is the evaluation order of a Python list comprehension
or a sequential loop whose body can raise. -/
def mapE (f : α → Except ε β) : List α → Except ε (List β)
  | [] => .ok []
  | a :: as => do
    let b ← f a
    let bs ← mapE f as
    return b :: bs

/-- `statistics.mean` on rationals: sum divided by length (only ever used
on nonempty lists in the embedded code). -/
def mean (l : List ℚ) : ℚ := l.sum / l.length

/-- The sample variance computed by `statistics.stdev` (before its square
root): `Σ (x - mean)² / (n - 1)`.  `stdev` itself raises
`StatisticsError` for `n < 2`; that guard lives in `checkIsochroneSet`. -/
def sampleVar (l : List ℚ) : ℚ :=
  ((l.map fun x => (x - mean l) ^ 2).sum) / ((l.length : ℚ) - 1)

/-- One evaluation of the filter condition of `check_isochrones` for a
single point `p`:
`abs(mean[0] - x[0]) / sd[0] < std_devs and abs(mean[1] - x[1]) / sd[1] < std_devs`.
Python evaluates the first division (raising `ZeroDivisionError` when
`sd[0] == 0`), short-circuits on a false first conjunct, and only then
evaluates the second division.  With `sd = √v`, the comparison
`|m - x| / √v < t` is encoded square-free as `0 < t ∧ (m - x)² < t² * v`. -/
def pointOk (t m0 m1 v0 v1 : ℚ) (p : ℚ × ℚ) : Except PyError Bool :=
  if v0 = 0 then .error .divByZero
  else if 0 < t ∧ (m0 - p.1) ^ 2 < t ^ 2 * v0 then
    if v1 = 0 then .error .divByZero
    else .ok (decide (0 < t ∧ (m1 - p.2) ^ 2 < t ^ 2 * v1))
  else .ok false

/-- The list comprehension
`[x for x in points[iso_num] if <condition>]`: points are inspected left to
right, an error in the condition aborts. -/
def filterPoints (cond : ℚ × ℚ → Except PyError Bool) :
    List (ℚ × ℚ) → Except PyError (List (ℚ × ℚ))
  | [] => .ok []
  | p :: ps => do
    let b ← cond p
    let rest ← filterPoints cond ps
    return if b then p :: rest else rest

/-- The body of the loop of `check_isochrones` for one boundary-point set:
compute per-coordinate means and standard deviations of `zip(*points)`,
then filter.  For an empty set, `zip(*[])` is empty, so no statistic is
computed and the result is the empty list (no error).  For a single point,
`st.stdev` on a one-element tuple raises `StatisticsError`. -/
def checkIsochroneSet (t : ℚ) (pts : List (ℚ × ℚ)) :
    Except PyError (List (ℚ × ℚ)) :=
  if pts.isEmpty then .ok []
  else if pts.length < 2 then .error .statError
  else
    let m0 := mean (pts.map Prod.fst)
    let m1 := mean (pts.map Prod.snd)
    let v0 := sampleVar (pts.map Prod.fst)
    let v1 := sampleVar (pts.map Prod.snd)
    filterPoints (pointOk t m0 m1 v0 v1) pts

/-- `check_isochrones(points, std_devs=2)`: the Outlier Filter.  Processes
the boundary-point sets in order, appending each filtered set; the first
raised error aborts the whole call. -/
def check_isochrones (points : List (List (ℚ × ℚ))) (std_devs : ℚ) :
    Except PyError (List (List (ℚ × ℚ))) :=
  mapE (checkIsochroneSet std_devs) points

/-- Structural helper for `batch`: the fuel argument (instantiated with the
list length, which bounds the number of loop iterations) only makes the
recursion structural; `batchAux_congr` shows the result does not depend on
it. -/
def batchAux (n : ℕ) : ℕ → List α → List (List α)
  | _, [] => []
  | 0, _ :: _ => []
  | fuel + 1, a :: as => (a :: as).take n :: batchAux n fuel ((a :: as).drop n)

/-- `batch(iterable, n)`: yields `iterable[ndx:ndx+n]` for
`ndx in range(0, len(iterable), n)` — equivalently (see `batch_cons`) the
head slice `l.take n` followed by batching of `l.drop n`.  Python's
`range` raises `ValueError` for step `n = 0`; this definition returns `[]`
there, and the caller `isochrone_batch` models that `ValueError`
explicitly, so `batch` is only ever relied upon for `n ≥ 1`. -/
def batch (l : List α) (n : ℕ) : List (List α) :=
  if n = 0 then [] else batchAux n l.length l

/-- The spec-side "within `t` standard deviations of the set's own mean"
predicate for a point of a boundary-point set `s`, in the same square-free
encoding as `pointOk`: both the lat and the lng condition must hold. -/
def withinStd (t : ℚ) (s : List (ℚ × ℚ)) (p : ℚ × ℚ) : Bool :=
  decide (0 < t ∧ (mean (s.map Prod.fst) - p.1) ^ 2
      < t ^ 2 * sampleVar (s.map Prod.fst)) &&
  decide (0 < t ∧ (mean (s.map Prod.snd) - p.2) ^ 2
      < t ^ 2 * sampleVar (s.map Prod.snd))

/-- A `shapely.geometry.Polygon` built from an explicit coordinate list
(shapely closes the ring itself, so the polygon is determined by that
list). -/
structure Polygon where
  pts : List (ℚ × ℚ)
deriving DecidableEq, Repr

/-- Swap every coordinate pair of a polygon: the `(lat, lng)` polygon
becomes the `(lng, lat)` polygon. -/
def polySwap (p : Polygon) : Polygon := ⟨p.pts.map Prod.swap⟩

/-- A duration argument as the dynamically-typed Python code receives it:
either an `int` or a list of `int`s.  (`shp_to_isochrones` branches on
`type(duration) is int` / `is list`.) -/
inductive Duration
  | int (d : ℤ)
  | list (ds : List ℤ)
deriving DecidableEq, Repr

/-- Modelled from the spec: the routing collaborator
`isocronut.get_isochrone` belongs to this repository but its source is not
among the provided files.  Per the spec it is an opaque remote call with
request `{origin coordinate, credential, duration, tolerance}` and response
an ordered sequence of boundary coordinate pairs (or a raised error, which
propagates uncaught).  The credential and the fixed `tolerance=2` are
absorbed into the function; the duration is passed through exactly as the
caller supplies it (`int` or list — the source forwards its dynamically
typed `duration` argument unchanged). -/
def Route : Type := (ℚ × ℚ) → Duration → Except PyError (List (ℚ × ℚ))

/-- One row of the input GeoDataFrame: the matching-identifier column value
plus the geometry, which only ever enters the pipeline through its
centroid and is therefore represented by that centroid's `(x, y)`
coordinates. -/
structure GeoRow where
  id : PyScalar
  geom : ℚ × ℚ
deriving DecidableEq, Repr

/-- The `(lat, lng)` origin pair `get_centroids` builds for one row:
`zip(y, x)` pairs the centroid's `y` first. -/
def centroidOf (r : GeoRow) : ℚ × ℚ := (r.geom.2, r.geom.1)

/-- `get_centroids(gdf)`: one `[y, x]` pair per row, in row order. -/
def get_centroids (gdf : List GeoRow) : List (ℚ × ℚ) := gdf.map centroidOf

/-- `iterate_isochrones(coords, key, duration, swap_xy)`: one routing call
per origin (in order, first error aborts), then the Outlier Filter with
its default threshold 2, then one polygon per filtered set —
`[[p[1], p[0]] ...]` when `swap_xy` else `[[p[0], p[1]] ...]`. -/
def iterate_isochrones (route : Route) (coords : List (ℚ × ℚ))
    (duration : Duration) (swap_xy : Bool) : Except PyError (List Polygon) := do
  let iso_points ← mapE (fun x => route x duration) coords
  let iso_points ← check_isochrones iso_points 2
  return iso_points.map fun x =>
    if swap_xy then ⟨x.map fun p => (p.2, p.1)⟩ else ⟨x.map fun p => (p.1, p.2)⟩

/-- One row of the results table produced by `shp_to_isochrones`: the
retained matching-identifier value (the embedding fixes `keep_cols` to the
matching-identifier column, the configuration `example.py` uses and the
only one under which the resume logic of `isochrone_batch` can find the
identifier in the output file), the `coords` column, the duration and the
polygon. -/
structure OutRow where
  id : PyScalar
  coords : ℚ × ℚ
  duration : ℤ
  geometry : Polygon
deriving DecidableEq, Repr

/-- The wide-format result: one row per origin, all with the same duration
value `d`, polygons positionally zipped (`df['geometry'] = iterate_isochrones(...)`). -/
def buildWide (gdf : List GeoRow) (d : ℤ) (polys : List Polygon) : List OutRow :=
  List.zipWith (fun r p => ⟨r.id, centroidOf r, d, p⟩) gdf polys

/-- One melted block of the long-format result for duration column `d`:
one row per origin in original order; the `coords` column was reversed
beforehand when `swap_xy` (`df['coords'] = [x[::-1] for x in df['coords']]`). -/
def buildLong (gdf : List GeoRow) (swap_xy : Bool) (d : ℤ) (polys : List Polygon) :
    List OutRow :=
  List.zipWith
    (fun r p => ⟨r.id, if swap_xy then (centroidOf r).swap else centroidOf r, d, p⟩)
    gdf polys

/-- Structural helper for `firstOccDedup` (fuel bounds the recursion depth;
`firstOccDedupAux_congr` shows independence from it). -/
def firstOccDedupAux : ℕ → List ℤ → List ℤ
  | _, [] => []
  | 0, _ :: _ => []
  | fuel + 1, d :: ds => d :: firstOccDedupAux fuel (ds.filter fun x => x ≠ d)

/-- Pandas column keys in first-assignment order: `df[length] = ...` inside
the duration loop creates one column per distinct duration value, at the
position of its first occurrence (a repeated duration overwrites the
existing column in place). -/
def firstOccDedup (l : List ℤ) : List ℤ := firstOccDedupAux l.length l

/-- First-match association lookup (pandas column access by key; with the
pure `Route` of this model, re-assigned duplicate columns hold the same
value as the first assignment, so first-match lookup is faithful). -/
def lookupD (d : ℤ) : List (ℤ × List Polygon) → Option (List Polygon)
  | [] => none
  | (k, v) :: rest => if k = d then some v else lookupD d rest

/-- `shp_to_isochrones(gdf, key, duration, keep_cols, swap_xy)`.
Wide branch (`type(duration) is int`, or a list of length 1): the
`df['duration'] = duration` assignment broadcasts an `int`, while a list
must match the row count exactly (pandas raises `ValueError` otherwise —
for a length-1 list that means the table must have exactly one row); the
`duration` argument is then forwarded *as is* (scalar or list) to
`iterate_isochrones` and hence to the routing collaborator.
Long branch (any other list): one `iterate_isochrones` call per listed
duration with the scalar value, then `pd.melt` stacks one block per
duration column (first-occurrence order) with rows in original order. -/
def shp_to_isochrones (route : Route) (gdf : List GeoRow) (duration : Duration)
    (swap_xy : Bool) : Except PyError (List OutRow) :=
  match duration with
  | .int d => (iterate_isochrones route (get_centroids gdf) duration swap_xy).map
      (buildWide gdf d)
  | .list ds =>
    if ds.length = 1 then
      if ds.length = gdf.length then
        (iterate_isochrones route (get_centroids gdf) duration swap_xy).map
          (buildWide gdf ds.headI)
      else .error .valueError
    else do
      let results ← mapE (fun len =>
        (iterate_isochrones route (get_centroids gdf) (.int len) swap_xy).map
          (fun ps => (len, ps))) ds
      return (firstOccDedup ds).flatMap fun d =>
        match lookupD d results with
        | some polys => buildLong gdf swap_xy d polys
        | none => []


/-- Value of a decimal digit character, if it is one. -/
def digitVal (c : Char) : Option ℕ :=
  if '0' ≤ c ∧ c ≤ '9' then some (c.toNat - '0'.toNat) else none

/-- Decimal reading of a nonempty all-digit character list. -/
def parseNatChars : List Char → Option ℕ
  | [] => none
  | cs => cs.foldl (fun acc c => acc.bind fun n => (digitVal c).map fun d => 10 * n + d)
      (some 0)

/-- Python's `int(s)` on a decimal string (an optional sign followed by
digits); `none` models the raised `ValueError`. -/
def pyInt (s : String) : Option ℤ :=
  match s.data with
  | '-' :: rest => (parseNatChars rest).map fun n => -(n : ℤ)
  | cs => (parseNatChars cs).map fun n => (n : ℤ)

/-- `Series.astype(int)` on one scalar: an `int` is unchanged, a numeric
string is parsed, a non-numeric string raises `ValueError`. -/
def astypeInt : PyScalar → Except PyError PyScalar
  | .int z => .ok (.int z)
  | .str s => match pyInt s with
    | some z => .ok (.int z)
    | none => .error .valueError

/-- `gdf[matching_var] = gdf[matching_var].astype(int)`: coerce the whole
identifier column.  `astype` evaluates before the assignment, so on error
the table is left unchanged (handled at the call site). -/
def astypeIdCol (gdf : List GeoRow) : Except PyError (List GeoRow) :=
  mapE (fun r => (astypeInt r.id).map fun i => { r with id := i }) gdf

/-- The identifier column of the output store. -/
def outIds (out : List OutRow) : List PyScalar := out.map OutRow.id

/-- `unfinished_idx = [item for item in gdf[matching_var] if item not in set(out_df[matching_var])]`. -/
def unfinishedIdx (gdf : List GeoRow) (out : List OutRow) : List PyScalar :=
  (gdf.map GeoRow.id).filter fun i => decide (i ∉ outIds out)

/-- `gdf_unfinished = gdf[gdf[matching_var].isin(unfinished_idx)]`. -/
def gdfUnfinished (gdf : List GeoRow) (out : List OutRow) : List GeoRow :=
  gdf.filter fun r => decide (r.id ∈ unfinishedIdx gdf out)

/-- The chunk loop of `isochrone_batch`: for each chunk, compute its
results table with `shp_to_isochrones` (keep columns, default
`swap_xy=True`) and append it to the output file
(`pd.read_csv(...).append(batch_df).to_csv(...)`).  The first pair
component is the output-file content when the loop stops, the second the
raised error, if any: a failing chunk leaves the file exactly as the last
completed chunk left it. -/
def runChunks (route : Route) (duration : Duration) :
    List (List GeoRow) → List OutRow → List OutRow × Option PyError
  | [], disk => (disk, none)
  | c :: cs, disk =>
    match shp_to_isochrones route c duration true with
    | .error e => (disk, some e)
    | .ok rows => runChunks route duration cs (disk ++ rows)

/-- Observable outcome of one `isochrone_batch` run: the caller's input
table afterwards (the source mutates its identifier column in place), the
output-file content afterwards, and the raised error, if any. -/
structure RunResult where
  gdf : List GeoRow
  disk : List OutRow
  err : Option PyError
deriving DecidableEq, Repr

/-- `isochrone_batch(gdf, key, out_filename, matching_var, duration, keep_cols, batch_size)`.
The output file is `none` when `out_filename` does not exist.  In that
case a header-only file is created (zero rows); otherwise the file is
loaded and the *input table's* identifier column is coerced with
`astype(int)` — an in-place mutation of the caller's table.  Identifiers
present in the loaded output are skipped; the remaining rows are chunked
by `batch` and processed sequentially.  `batch_size = 0` makes Python's
`range` raise `ValueError` when the chunk loop starts, i.e. after the
file creation / coercion steps. -/
def isochrone_batch (route : Route) (gdf : List GeoRow) (duration : Duration)
    (batch_size : ℕ) (file : Option (List OutRow)) : RunResult :=
  match file with
  | none =>
    if batch_size = 0 then ⟨gdf, [], some .valueError⟩
    else
      let r := runChunks route duration (batch (gdfUnfinished gdf []) batch_size) []
      ⟨gdf, r.1, r.2⟩
  | some init =>
    match astypeIdCol gdf with
    | .error e => ⟨gdf, init, some e⟩
    | .ok gdf' =>
      if batch_size = 0 then ⟨gdf', init, some .valueError⟩
      else
        let r := runChunks route duration (batch (gdfUnfinished gdf' init) batch_size) init
        ⟨gdf', r.1, r.2⟩

/-- The durations the caller requested: a scalar means the one-element
list. -/
def durList : Duration → List ℤ
  | .int d => [d]
  | .list ds => ds

/-- The duration values that actually appear in a successful
`shp_to_isochrones` result: the scalar, the single list element, or the
distinct listed durations in first-occurrence (pandas column) order. -/
def outDurs : Duration → List ℤ
  | .int d => [d]
  | .list ds => if ds.length = 1 then ds else firstOccDedup ds

/-- Number of output rows carrying a given (identifier, duration) pair. -/
def countIdDur (out : List OutRow) (z : PyScalar) (d : ℤ) : ℕ :=
  out.countP fun row => decide (row.id = z ∧ row.duration = d)

/-! ### Lemmas about `batch` -/

theorem batchAux_congr {α} (n : ℕ) (hn : n ≠ 0) (fuel fuel' : ℕ) (l : List α)
    (h : l.length ≤ fuel) (h' : l.length ≤ fuel') :
    batchAux n fuel l = batchAux n fuel' l := by
  induction fuel generalizing l fuel' with
  | zero =>
    cases l with
    | nil => cases fuel' <;> rfl
    | cons a as => simp at h
  | succ fuel ih =>
    cases l with
    | nil => cases fuel' <;> rfl
    | cons a as =>
      cases fuel' with
      | zero => simp at h'
      | succ fuel' =>
        simp only [batchAux]
        congr 1
        apply ih
        · simp at h ⊢; omega
        · simp at h' ⊢; omega

theorem batch_nil {α} (n : ℕ) : batch ([] : List α) n = [] := by
  unfold batch; cases n <;> rfl

theorem batch_cons {α} (n : ℕ) (hn : n ≠ 0) (l : List α) (hl : l ≠ []) :
    batch l n = l.take n :: batch (l.drop n) n := by
  unfold batch
  rw [if_neg hn, if_neg hn]
  cases l with
  | nil => exact absurd rfl hl
  | cons a as =>
    simp only [List.length_cons, batchAux]
    congr 1
    apply batchAux_congr n hn
    · simp; omega
    · exact le_refl _

theorem batch_flatten {α} (n : ℕ) (hn : n ≠ 0) (l : List α) :
    (batch l n).flatten = l := by
  by_cases hl : l = []
  · subst hl; rw [batch_nil]; rfl
  · rw [batch_cons n hn l hl, List.flatten_cons, batch_flatten n hn (l.drop n),
      List.take_append_drop]
termination_by l.length
decreasing_by
  simp only [List.length_drop]
  cases l with
  | nil => exact absurd rfl hl
  | cons a as => simp; omega

theorem batch_eq_nil_iff {α} (n : ℕ) (hn : n ≠ 0) (l : List α) :
    batch l n = [] ↔ l = [] := by
  constructor
  · intro h
    by_contra hl
    rw [batch_cons n hn l hl] at h
    cases h
  · intro h; subst h; exact batch_nil n

theorem batch_chunk_sound {α} (n : ℕ) (hn : n ≠ 0) (l : List α) :
    ∀ c ∈ batch l n, c ≠ [] ∧ c.length ≤ n := by
  by_cases hl : l = []
  · subst hl; rw [batch_nil]; intro c hc; cases hc
  · rw [batch_cons n hn l hl]
    intro c hc
    rcases List.mem_cons.mp hc with h | h
    · subst h
      refine ⟨?_, ?_⟩
      · cases l with
        | nil => exact absurd rfl hl
        | cons a as => cases n with
          | zero => exact absurd rfl hn
          | succ m => simp
      · simp [List.length_take]
    · exact batch_chunk_sound n hn (l.drop n) c h
termination_by l.length
decreasing_by
  simp only [List.length_drop]
  cases l with
  | nil => exact absurd rfl hl
  | cons a as => simp; omega

theorem batch_chunk_sizes {α} (n : ℕ) (hn : n ≠ 0) (l : List α) :
    ∀ i, i + 1 < (batch l n).length → ((batch l n).getD i []).length = n := by
  by_cases hl : l = []
  · subst hl; rw [batch_nil]; intro i hi; simp at hi
  · rw [batch_cons n hn l hl]
    intro i hi
    cases i with
    | zero =>
      simp only [List.length_cons] at hi
      have hrest : batch (l.drop n) n ≠ [] := by
        intro h0
        rw [h0] at hi
        simp at hi
      have hdrop : l.drop n ≠ [] := by
        intro h0
        exact hrest ((batch_eq_nil_iff n hn (l.drop n)).mpr h0)
      have hlen : n < l.length := by
        by_contra hle
        exact hdrop (List.drop_eq_nil_of_le (by omega))
      simp [List.length_take]
      omega
    | succ i =>
      simp only [List.length_cons] at hi
      exact batch_chunk_sizes n hn (l.drop n) i (by omega)
termination_by l.length
decreasing_by
  simp only [List.length_drop]
  cases l with
  | nil => exact absurd rfl hl
  | cons a as => simp; omega

/-- C8: for every finite sequence and batch size `n ≥ 1`, `batch`
partitions the sequence into contiguous chunks: their concatenation in
order is the original sequence, no chunk is empty, every chunk has size at
most `n`, and every chunk except possibly the last has size exactly `n`. -/
theorem batch_partitions {α} (l : List α) (n : ℕ) (hn : 1 ≤ n) :
    (batch l n).flatten = l ∧
    (∀ c ∈ batch l n, c ≠ [] ∧ c.length ≤ n) ∧
    (∀ i, i + 1 < (batch l n).length → ((batch l n).getD i []).length = n) :=
  ⟨batch_flatten n (by omega) l, batch_chunk_sound n (by omega) l,
    batch_chunk_sizes n (by omega) l⟩

/-- C8 witness: the claim's concrete scenario — 7 records with batch size 3
give exactly the 3 chunks `[1,2,3]`, `[4,5,6]`, `[7]` of sizes 3, 3, 1. -/
theorem batch_partitions_witness :
    (1 ≤ 3) ∧
    ((batch [1, 2, 3, 4, 5, 6, 7] 3).flatten = [1, 2, 3, 4, 5, 6, 7] ∧
      (∀ c ∈ batch [1, 2, 3, 4, 5, 6, 7] 3, c ≠ [] ∧ c.length ≤ 3) ∧
      (∀ i, i + 1 < (batch [1, 2, 3, 4, 5, 6, 7] 3).length →
        ((batch [1, 2, 3, 4, 5, 6, 7] 3).getD i []).length = 3)) ∧
    batch [1, 2, 3, 4, 5, 6, 7] 3 = [[1, 2, 3], [4, 5, 6], [7]] :=
  ⟨by decide, batch_partitions [1, 2, 3, 4, 5, 6, 7] 3 (by decide), by decide⟩

/-! ### Lemmas about `mapE`, `filterPoints` and the statistics helpers -/

theorem mapE_nil (f : α → Except ε β) : mapE f [] = .ok [] := rfl

theorem mapE_cons (f : α → Except ε β) (a : α) (as : List α) :
    mapE f (a :: as) =
      (f a).bind fun b => (mapE f as).bind fun bs => .ok (b :: bs) := rfl

theorem sum_all_eq (l : List ℚ) (a : ℚ) (h : ∀ x ∈ l, x = a) :
    l.sum = l.length * a := by
  induction l with
  | nil => simp
  | cons x xs ih =>
    have hx : x = a := h x (List.mem_cons_self x xs)
    have : xs.sum = xs.length * a := ih fun y hy => h y (List.mem_cons_of_mem x hy)
    simp [hx, this]
    ring

theorem mean_all_eq (l : List ℚ) (a : ℚ) (hne : l ≠ []) (h : ∀ x ∈ l, x = a) :
    mean l = a := by
  have hlen : (l.length : ℚ) ≠ 0 := by
    simp [List.length_eq_zero]
    exact hne
  rw [mean, sum_all_eq l a h, mul_comm, mul_div_assoc, div_self hlen, mul_one]

theorem sampleVar_all_eq (l : List ℚ) (a : ℚ) (h : ∀ x ∈ l, x = a) :
    sampleVar l = 0 := by
  by_cases hne : l = []
  · subst hne; simp [sampleVar]
  · rw [sampleVar]
    have hm : mean l = a := mean_all_eq l a hne h
    have hz : (l.map fun x => (x - mean l) ^ 2).sum = 0 := by
      apply List.sum_eq_zero
      intro y hy
      rcases List.mem_map.mp hy with ⟨x, hx, rfl⟩
      rw [h x hx, hm, sub_self]
      ring
    rw [hz, zero_div]

theorem length_mul_le_sum (l : List ℚ) (b : ℚ) (h : ∀ x ∈ l, b ≤ x) :
    (l.length : ℚ) * b ≤ l.sum := by
  induction l with
  | nil => simp
  | cons x xs ih =>
    have hx : b ≤ x := h x (List.mem_cons_self x xs)
    have hxs : (xs.length : ℚ) * b ≤ xs.sum :=
      ih fun y hy => h y (List.mem_cons_of_mem x hy)
    simp only [List.length_cons, List.sum_cons, Nat.cast_add, Nat.cast_one]
    nlinarith

theorem sampleVar_nonneg (l : List ℚ) (h2 : 2 ≤ l.length) : 0 ≤ sampleVar l := by
  rw [sampleVar]
  apply div_nonneg
  · apply List.sum_nonneg
    intro y hy
    rcases List.mem_map.mp hy with ⟨x, _, rfl⟩
    positivity
  · have : (2 : ℚ) ≤ (l.length : ℚ) := by exact_mod_cast h2
    linarith

/-- In a sample of size at least 2 with nonzero variance, some data point
lies strictly within two standard deviations of the mean (square-free
form). -/
theorem exists_within_two_std (l : List ℚ) (h2 : 2 ≤ l.length)
    (hv : sampleVar l ≠ 0) :
    ∃ x ∈ l, (mean l - x) ^ 2 < 2 ^ 2 * sampleVar l := by
  by_contra hall
  push_neg at hall
  have hn : (2 : ℚ) ≤ (l.length : ℚ) := by exact_mod_cast h2
  have hv0 : 0 < sampleVar l := lt_of_le_of_ne (sampleVar_nonneg l h2) (Ne.symm hv)
  have hsum : ((l.map fun x => (x - mean l) ^ 2).length : ℚ) * (2 ^ 2 * sampleVar l)
      ≤ (l.map fun x => (x - mean l) ^ 2).sum := by
    apply length_mul_le_sum
    intro y hy
    rcases List.mem_map.mp hy with ⟨x, hx, rfl⟩
    have := hall x hx
    nlinarith
  have hS : (l.map fun x => (x - mean l) ^ 2).sum = sampleVar l * ((l.length : ℚ) - 1) := by
    rw [sampleVar, div_mul_cancel₀]
    linarith
  rw [List.length_map, hS] at hsum
  nlinarith

theorem filterPoints_err_of_v0 (t m0 m1 v1 : ℚ) (p : ℚ × ℚ) (ps : List (ℚ × ℚ)) :
    filterPoints (pointOk t m0 m1 0 v1) (p :: ps) = .error .divByZero := by
  simp [filterPoints, pointOk, Bind.bind, Except.bind]

theorem filterPoints_err_of_v1 (t m0 m1 v0 : ℚ) (pts : List (ℚ × ℚ))
    (hv0 : v0 ≠ 0)
    (hex : ∃ p ∈ pts, 0 < t ∧ (m0 - p.1) ^ 2 < t ^ 2 * v0) :
    filterPoints (pointOk t m0 m1 v0 0) pts = .error .divByZero := by
  induction pts with
  | nil => rcases hex with ⟨p, hp, _⟩; cases hp
  | cons p ps ih =>
    by_cases hc : 0 < t ∧ (m0 - p.1) ^ 2 < t ^ 2 * v0
    · simp [filterPoints, pointOk, if_neg hv0, if_pos hc, Bind.bind, Except.bind]
    · have hex' : ∃ q ∈ ps, 0 < t ∧ (m0 - q.1) ^ 2 < t ^ 2 * v0 := by
        rcases hex with ⟨q, hq, hcond⟩
        rcases List.mem_cons.mp hq with rfl | hq'
        · exact absurd hcond hc
        · exact ⟨q, hq', hcond⟩
      simp [filterPoints, pointOk, if_neg hv0, if_neg hc, Bind.bind, Except.bind, ih hex']

theorem filterPoints_ok (t m0 m1 v0 v1 : ℚ) (hv0 : v0 ≠ 0) (hv1 : v1 ≠ 0)
    (pts : List (ℚ × ℚ)) :
    filterPoints (pointOk t m0 m1 v0 v1) pts =
      .ok (pts.filter fun p =>
        decide (0 < t ∧ (m0 - p.1) ^ 2 < t ^ 2 * v0) &&
        decide (0 < t ∧ (m1 - p.2) ^ 2 < t ^ 2 * v1)) := by
  induction pts with
  | nil => rfl
  | cons p ps ih =>
    by_cases hc : 0 < t ∧ (m0 - p.1) ^ 2 < t ^ 2 * v0
    · simp [filterPoints, pointOk, if_neg hv0, if_pos hc, if_neg hv1, Bind.bind,
        Except.bind, ih, List.filter_cons, hc]
      by_cases hc1 : 0 < t ∧ (m1 - p.2) ^ 2 < t ^ 2 * v1 <;> simp [hc1, Pure.pure, Except.pure]
    · simp [filterPoints, pointOk, if_neg hv0, if_neg hc, Bind.bind,
        Except.bind, ih, List.filter_cons, hc, Pure.pure, Except.pure]

/-! ### Claims about the Outlier Filter (C4, C7, C10) and the swap flag (C5) -/

theorem checkIsochroneSet_singleton (t : ℚ) (p : ℚ × ℚ) :
    checkIsochroneSet t [p] = .error .statError := rfl

/-- C7 counterexample: the claim quantifies over *every* set with fewer
than 2 points, but a 0-point `BoundaryPointSet` does not make the Outlier
Filter fail — `zip(*[])` is empty, so no standard deviation is ever
computed and the call returns the empty filtered set. -/
theorem check_isochrones_empty_set_counterexample :
    ([] : List (ℚ × ℚ)).length < 2 ∧
      check_isochrones [([] : List (ℚ × ℚ))] 2 = .ok [[]] := by
  constructor
  · decide
  · rfl

/-- C7 (amended): for every input containing a `BoundaryPointSet` with
exactly one point, the Outlier Filter fails — the error propagates to the
caller and no filtered result is returned for any set in that call.  (A
0-point set, by contrast, yields an empty filtered set without error.) -/
theorem check_isochrones_one_point_fails (sets : List (List (ℚ × ℚ))) (t : ℚ)
    (h : ∃ s ∈ sets, s.length = 1) :
    ∃ e, check_isochrones sets t = .error e := by
  induction sets with
  | nil => rcases h with ⟨s, hs, _⟩; cases hs
  | cons s ss ih =>
    rcases h with ⟨s', hs', hlen⟩
    rcases List.mem_cons.mp hs' with rfl | hmem
    · refine ⟨.statError, ?_⟩
      rcases s' with _ | ⟨p, _ | ⟨q, rest⟩⟩
      · cases hlen
      · rw [check_isochrones, mapE_cons, checkIsochroneSet_singleton]; rfl
      · simp at hlen
    · rw [check_isochrones, mapE_cons]
      cases hcs : checkIsochroneSet t s with
      | error e => exact ⟨e, rfl⟩
      | ok fixed =>
        rcases ih ⟨s', hmem, hlen⟩ with ⟨e, he⟩
        rw [check_isochrones] at he
        refine ⟨e, ?_⟩
        simp [Bind.bind, Except.bind, he]

/-- C7 witness: a call whose input contains a one-point set fails. -/
theorem check_isochrones_one_point_fails_witness :
    (∃ s ∈ [[((0 : ℚ), (0 : ℚ))]], s.length = 1) ∧
      ∃ e, check_isochrones [[((0 : ℚ), (0 : ℚ))]] 2 = .error e :=
  ⟨⟨[((0 : ℚ), (0 : ℚ))], by decide, rfl⟩,
    check_isochrones_one_point_fails [[((0 : ℚ), (0 : ℚ))]] 2
      ⟨[((0 : ℚ), (0 : ℚ))], by decide, rfl⟩⟩

/-- C10: a `BoundaryPointSet` with at least 2 points whose points all share
the same lat value, or all share the same lng value (zero standard
deviation in that coordinate), makes the Outlier Filter fail with a
division-by-zero error instead of returning a filtered set — so the
under-2-points case is not the only unguarded statistical failure. -/
theorem check_isochrones_zero_stdev_fails (pts : List (ℚ × ℚ))
    (h2 : 2 ≤ pts.length)
    (hconst : (∃ a, ∀ p ∈ pts, p.1 = a) ∨ (∃ b, ∀ p ∈ pts, p.2 = b)) :
    check_isochrones [pts] 2 = .error .divByZero := by
  have hset : checkIsochroneSet 2 pts = .error .divByZero := by
    rw [checkIsochroneSet]
    rw [if_neg (by cases pts with
      | nil => simp at h2
      | cons p ps => simp), if_neg (by omega)]
    by_cases hv0 : sampleVar (pts.map Prod.fst) = 0
    · rcases pts with _ | ⟨p, ps⟩
      · simp at h2
      · rw [hv0]
        exact filterPoints_err_of_v0 _ _ _ _ p ps
    · have hb : ∃ b, ∀ p ∈ pts, p.2 = b := by
        rcases hconst with ⟨a, ha⟩ | hb
        · exact absurd (sampleVar_all_eq (pts.map Prod.fst) a
            (fun x hx => by rcases List.mem_map.mp hx with ⟨p, hp, rfl⟩; exact ha p hp)) hv0
        · exact hb
      rcases hb with ⟨b, hball⟩
      have hv1 : sampleVar (pts.map Prod.snd) = 0 :=
        sampleVar_all_eq (pts.map Prod.snd) b
          (fun y hy => by rcases List.mem_map.mp hy with ⟨p, hp, rfl⟩; exact hball p hp)
      have hlen : 2 ≤ (pts.map Prod.fst).length := by simp [h2]
      rcases exists_within_two_std (pts.map Prod.fst) hlen hv0 with ⟨x, hx, hxlt⟩
      rcases List.mem_map.mp hx with ⟨p, hp, rfl⟩
      rw [hv1]
      apply filterPoints_err_of_v1 _ _ _ _ _ hv0
      exact ⟨p, hp, by norm_num, by rw [show ((2 : ℚ) ^ 2) = 4 by norm_num]; nlinarith [hxlt]⟩
  rw [check_isochrones, mapE_cons, hset]
  rfl

/-- C10 witness: two points sharing the same lat value trigger the
division-by-zero failure. -/
theorem check_isochrones_zero_stdev_fails_witness :
    (2 ≤ [((1 : ℚ), (0 : ℚ)), (1, 5)].length) ∧
      check_isochrones [[((1 : ℚ), (0 : ℚ)), (1, 5)]] 2 = .error .divByZero :=
  ⟨by decide, check_isochrones_zero_stdev_fails [((1 : ℚ), (0 : ℚ)), (1, 5)]
    (by decide) (.inl ⟨1, by decide⟩)⟩

theorem checkIsochroneSet_eq_filter (t : ℚ) (s : List (ℚ × ℚ))
    (h2 : 2 ≤ s.length)
    (hv0 : sampleVar (s.map Prod.fst) ≠ 0)
    (hv1 : sampleVar (s.map Prod.snd) ≠ 0) :
    checkIsochroneSet t s = .ok (s.filter (withinStd t s)) := by
  rw [checkIsochroneSet]
  rw [if_neg (by cases s with
    | nil => simp at h2
    | cons p ps => simp), if_neg (by omega)]
  exact filterPoints_ok t _ _ _ _ hv0 hv1 s

/-- C4: on a list of boundary-point sets that each have at least 2 points
and nonzero standard deviation in both coordinates, the Outlier Filter
returns one filtered set per input set, in the same order; each filtered
set consists of exactly those points of the corresponding input set, in
their original order, that are within `t` standard deviations of that
set's own mean in both coordinates — the result for a set is a function of
that set alone, so no point of another set influences it. -/
theorem check_isochrones_filters (sets : List (List (ℚ × ℚ))) (t : ℚ)
    (h : ∀ s ∈ sets, 2 ≤ s.length ∧
      sampleVar (s.map Prod.fst) ≠ 0 ∧ sampleVar (s.map Prod.snd) ≠ 0) :
    check_isochrones sets t = .ok (sets.map fun s => s.filter (withinStd t s)) := by
  induction sets with
  | nil => rfl
  | cons s ss ih =>
    rcases h s (List.mem_cons_self s ss) with ⟨h2, hv0, hv1⟩
    rw [check_isochrones, mapE_cons, checkIsochroneSet_eq_filter t s h2 hv0 hv1]
    have ihs : check_isochrones ss t = .ok (ss.map fun s => s.filter (withinStd t s)) :=
      ih fun s hs => h s (List.mem_cons_of_mem _ hs)
    rw [check_isochrones] at ihs
    simp [Bind.bind, Except.bind, ihs]

/-- C4 witness: a three-point set with nonzero spread in both coordinates;
all its points are within 2 standard deviations of the mean and survive. -/
theorem check_isochrones_filters_witness :
    (∀ s ∈ [[((0 : ℚ), (0 : ℚ)), (1, 1), (2, 2)]], 2 ≤ s.length ∧
      sampleVar (s.map Prod.fst) ≠ 0 ∧ sampleVar (s.map Prod.snd) ≠ 0) ∧
    check_isochrones [[((0 : ℚ), (0 : ℚ)), (1, 1), (2, 2)]] 2 =
      .ok ([[((0 : ℚ), (0 : ℚ)), (1, 1), (2, 2)]].map fun s =>
        s.filter (withinStd 2 s)) := by
  have h : ∀ s ∈ [[((0 : ℚ), (0 : ℚ)), (1, 1), (2, 2)]], 2 ≤ s.length ∧
      sampleVar (s.map Prod.fst) ≠ 0 ∧ sampleVar (s.map Prod.snd) ≠ 0 := by
    intro s hs
    rcases List.mem_singleton.mp hs with rfl
    refine ⟨by norm_num, ?_, ?_⟩ <;> norm_num [sampleVar, mean]
  exact ⟨h, check_isochrones_filters _ 2 h⟩

/-- C5: for a fixed routing oracle, origin list and duration, the Isochrone
Builder with the swap flag enabled produces, point for point, exactly the
reverse-order coordinate pairs of the polygons it produces with the flag
disabled (and fails with the same error whenever the non-swapped run
fails). -/
theorem iterate_isochrones_swap (route : Route) (coords : List (ℚ × ℚ))
    (duration : Duration) :
    iterate_isochrones route coords duration true =
      (iterate_isochrones route coords duration false).map
        fun polys => polys.map polySwap := by
  rw [iterate_isochrones, iterate_isochrones]
  simp only [Bind.bind, Except.bind]
  cases mapE (fun x => route x duration) coords with
  | error e => rfl
  | ok raw =>
    cases h2 : check_isochrones raw 2 with
    | error e => simp [h2, Except.map]
    | ok fixed =>
      simp [h2, Except.map, Pure.pure, Except.pure, polySwap, List.map_map,
        Function.comp, Prod.swap]

/-! ### Inversion helpers for `Except` and `mapE` -/

theorem except_bind_ok {ε α β : Type} {m : Except ε α} {f : α → Except ε β} {b : β}
    (h : m.bind f = .ok b) : ∃ a, m = .ok a ∧ f a = .ok b := by
  cases m with
  | error e => simp [Except.bind] at h
  | ok a => exact ⟨a, rfl, h⟩

theorem except_map_ok {ε α β : Type} {m : Except ε α} {g : α → β} {b : β}
    (h : Except.map g m = .ok b) : ∃ a, m = .ok a ∧ b = g a := by
  cases m with
  | error e => simp [Except.map] at h
  | ok a => refine ⟨a, rfl, ?_⟩; simp [Except.map] at h; exact h.symm

theorem mapE_cons_ok {α β ε : Type} {f : α → Except ε β} {a : α} {as : List α}
    {bs : List β} (h : mapE f (a :: as) = .ok bs) :
    ∃ b rest, f a = .ok b ∧ mapE f as = .ok rest ∧ bs = b :: rest := by
  rw [mapE_cons] at h
  rcases except_bind_ok h with ⟨b, hb, h2⟩
  rcases except_bind_ok h2 with ⟨rest, hrest, h3⟩
  cases h3
  exact ⟨b, rest, hb, hrest, rfl⟩

theorem mapE_cons_eq {α β ε : Type} {f : α → Except ε β} {a : α} {as : List α}
    {b : β} {rest : List β} (ha : f a = .ok b) (has : mapE f as = .ok rest) :
    mapE f (a :: as) = .ok (b :: rest) := by
  rw [mapE_cons, ha, has]
  rfl

theorem mapE_ok_length {α β ε : Type} (f : α → Except ε β) (l : List α)
    (bs : List β) (h : mapE f l = .ok bs) : bs.length = l.length := by
  induction l generalizing bs with
  | nil =>
    rw [mapE_nil] at h
    cases h
    rfl
  | cons a as ih =>
    rcases mapE_cons_ok h with ⟨b, rest, _, hrest, rfl⟩
    simp [ih rest hrest]

theorem mapE_append_ok {α β ε : Type} {f : α → Except ε β} {l₁ l₂ : List α}
    {b₁ : List β} (h : mapE f l₁ = .ok b₁) :
    mapE f (l₁ ++ l₂) = (mapE f l₂).map fun b₂ => b₁ ++ b₂ := by
  induction l₁ generalizing b₁ with
  | nil =>
    rw [mapE_nil] at h
    cases h
    simp only [List.nil_append]
    cases mapE f l₂ with
    | error e => rfl
    | ok b₂ => simp [Except.map]
  | cons a as ih =>
    rcases mapE_cons_ok h with ⟨b, rest, ha, hrest, rfl⟩
    rw [List.cons_append, mapE_cons, ha, ih hrest]
    cases mapE f l₂ with
    | error e => rfl
    | ok b₂ => simp [Except.bind, Except.map, Pure.pure, Except.pure]

/-! ### Lemmas about `astypeIdCol` -/

theorem astypeIdCol_int_id (gdf : List GeoRow)
    (h : ∀ r ∈ gdf, ∃ z, r.id = .int z) : astypeIdCol gdf = .ok gdf := by
  induction gdf with
  | nil => rfl
  | cons r rs ih =>
    rcases h r (List.mem_cons_self r rs) with ⟨z, hz⟩
    have hr : (astypeInt r.id).map (fun i => { r with id := i }) = .ok r := by
      rw [hz]
      simp [astypeInt, Except.map]
      cases r
      simp_all
    rw [astypeIdCol, mapE_cons, hr]
    have := ih fun q hq => h q (List.mem_cons_of_mem r hq)
    rw [astypeIdCol] at this
    rw [this]
    rfl

theorem astypeIdCol_geom (gdf gdf' : List GeoRow)
    (h : astypeIdCol gdf = .ok gdf') :
    gdf'.map GeoRow.geom = gdf.map GeoRow.geom := by
  induction gdf generalizing gdf' with
  | nil =>
    rw [astypeIdCol, mapE_nil] at h
    cases h
    rfl
  | cons r rs ih =>
    rw [astypeIdCol] at h
    rcases mapE_cons_ok h with ⟨b, rest, hb, hrest, rfl⟩
    rcases except_map_ok hb with ⟨i, _, rfl⟩
    have := ih rest (by rw [astypeIdCol]; exact hrest)
    simp [this]

/-! ### C6: singleton duration list versus scalar duration -/

/-- C6 counterexample: on a two-row input table, the scalar duration `5`
succeeds in wide format, while the one-element duration list `[5]` raises
pandas' length-mismatch `ValueError` from `df['duration'] = [5]` — the two
calls do not produce the same result. -/
theorem shp_to_isochrones_singleton_list_counterexample :
    shp_to_isochrones (fun _ _ => .ok []) [⟨.int 1, (0, 0)⟩, ⟨.int 2, (0, 0)⟩]
        (.list [5]) true = .error .valueError ∧
    shp_to_isochrones (fun _ _ => .ok []) [⟨.int 1, (0, 0)⟩, ⟨.int 2, (0, 0)⟩]
        (.int 5) true =
      .ok [⟨.int 1, (0, 0), 5, ⟨[]⟩⟩, ⟨.int 2, (0, 0), 5, ⟨[]⟩⟩] ∧
    shp_to_isochrones (fun _ _ => .ok []) [⟨.int 1, (0, 0)⟩, ⟨.int 2, (0, 0)⟩]
        (.list [5]) true ≠
      shp_to_isochrones (fun _ _ => .ok []) [⟨.int 1, (0, 0)⟩, ⟨.int 2, (0, 0)⟩]
        (.int 5) true := by
  refine ⟨by decide, by decide, ?_⟩
  intro hcontra
  have h1 : shp_to_isochrones (fun _ _ => .ok []) [⟨.int 1, (0, 0)⟩, ⟨.int 2, (0, 0)⟩]
      (.list [5]) true = .error .valueError := by decide
  have h2 : shp_to_isochrones (fun _ _ => .ok []) [⟨.int 1, (0, 0)⟩, ⟨.int 2, (0, 0)⟩]
      (.int 5) true =
      .ok [⟨.int 1, (0, 0), 5, ⟨[]⟩⟩, ⟨.int 2, (0, 0), 5, ⟨[]⟩⟩] := by decide
  rw [h1, h2] at hcontra
  cases hcontra

/-- C6 (amended): the singleton duration list `[d]` behaves like the
scalar `d` only on a one-row input table, and only as far as the routing
collaborator treats the forwarded duration value `[d]` like `d`; on any
other row count `df['duration'] = [d]` raises a length-mismatch
`ValueError` (see the counterexample), and the scalar and the list are
forwarded as such to the collaborator. -/
theorem shp_to_isochrones_singleton_list (route : Route) (gdf : List GeoRow)
    (d : ℤ) (swap_xy : Bool)
    (h1 : gdf.length = 1)
    (h2 : ∀ o, route o (.list [d]) = route o (.int d)) :
    shp_to_isochrones route gdf (.list [d]) swap_xy =
      shp_to_isochrones route gdf (.int d) swap_xy := by
  have hroute : (fun x => route x (.list [d])) = fun x => route x (.int d) :=
    funext h2
  simp only [shp_to_isochrones, List.length_singleton, h1, if_pos]
  rw [iterate_isochrones, iterate_isochrones, hroute]
  simp

/-- C6 witness: on a one-row table, with a routing oracle indifferent to
the duration's container type, the two calls agree. -/
theorem shp_to_isochrones_singleton_list_witness :
    ([(⟨.int 1, (0, 0)⟩ : GeoRow)].length = 1) ∧
    (∀ o, (fun (_ : ℚ × ℚ) (_ : Duration) =>
        (.ok [] : Except PyError (List (ℚ × ℚ)))) o (.list [5]) =
      (fun (_ : ℚ × ℚ) (_ : Duration) =>
        (.ok [] : Except PyError (List (ℚ × ℚ)))) o (.int 5)) ∧
    shp_to_isochrones (fun _ _ => .ok []) [⟨.int 1, (0, 0)⟩] (.list [5]) true =
      shp_to_isochrones (fun _ _ => .ok []) [⟨.int 1, (0, 0)⟩] (.int 5) true :=
  ⟨rfl, fun _ => rfl,
    shp_to_isochrones_singleton_list (fun _ _ => .ok []) [⟨.int 1, (0, 0)⟩] 5 true
      rfl (fun _ => rfl)⟩

/-! ### C9: mutation of the caller's input table -/

/-- C9 counterexample: with an existing output file, `isochrone_batch`
coerces the caller's matching-identifier column in place —
`gdf[matching_var] = gdf[matching_var].astype(int)` turns the string
identifier `"7"` into the integer `7`, so the input table is modified. -/
theorem isochrone_batch_mutates_input_counterexample :
    (isochrone_batch (fun _ _ => .ok []) [⟨.str "7", (0, 0)⟩] (.int 15) 1
        (some [])).gdf = [⟨.int 7, (0, 0)⟩] ∧
    [(⟨.int 7, (0, 0)⟩ : GeoRow)] ≠ [⟨.str "7", (0, 0)⟩] := by
  constructor
  · decide
  · decide

/-- C9 (amended): when the output file does not exist, the input table is
left unchanged; when it exists, the matching-identifier column is coerced
with `astype(int)` in place (so its values may change, e.g. `"7"` becomes
`7`, and the table is returned unchanged if the coercion raises), while
the geometry column is never modified. -/
theorem isochrone_batch_input_mutation (route : Route) (gdf : List GeoRow)
    (duration : Duration) (batch_size : ℕ) (init : List OutRow) :
    (isochrone_batch route gdf duration batch_size none).gdf = gdf ∧
    (isochrone_batch route gdf duration batch_size (some init)).gdf =
      (match astypeIdCol gdf with
        | .ok gdf' => gdf'
        | .error _ => gdf) ∧
    (isochrone_batch route gdf duration batch_size (some init)).gdf.map GeoRow.geom
      = gdf.map GeoRow.geom := by
  refine ⟨?_, ?_, ?_⟩
  · rw [isochrone_batch]
    by_cases hbs : batch_size = 0 <;> simp [hbs]
  · rw [isochrone_batch]
    cases h : astypeIdCol gdf with
    | error e => rfl
    | ok gdf' => by_cases hbs : batch_size = 0 <;> simp [hbs]
  · rw [isochrone_batch]
    cases h : astypeIdCol gdf with
    | error e => rfl
    | ok gdf' =>
      by_cases hbs : batch_size = 0 <;>
        simp [hbs, astypeIdCol_geom gdf gdf' h]

/-! ### Lemmas about `firstOccDedup` -/

theorem firstOccDedupAux_congr (fuel fuel' : ℕ) (l : List ℤ)
    (h : l.length ≤ fuel) (h' : l.length ≤ fuel') :
    firstOccDedupAux fuel l = firstOccDedupAux fuel' l := by
  induction fuel generalizing l fuel' with
  | zero =>
    cases l with
    | nil => cases fuel' <;> rfl
    | cons d ds => simp at h
  | succ fuel ih =>
    cases l with
    | nil => cases fuel' <;> rfl
    | cons d ds =>
      cases fuel' with
      | zero => simp at h'
      | succ fuel' =>
        simp only [firstOccDedupAux]
        congr 1
        apply ih
        · have := List.length_filter_le (fun x => decide (x ≠ d)) ds
          simp at h
          omega
        · have := List.length_filter_le (fun x => decide (x ≠ d)) ds
          simp at h'
          omega

theorem firstOccDedup_nil : firstOccDedup [] = [] := rfl

theorem firstOccDedup_cons (d : ℤ) (ds : List ℤ) :
    firstOccDedup (d :: ds) = d :: firstOccDedup (ds.filter fun x => x ≠ d) := by
  rw [firstOccDedup, firstOccDedup]
  simp only [List.length_cons, firstOccDedupAux]
  congr 1
  exact firstOccDedupAux_congr ds.length (ds.filter fun x => x ≠ d).length _
    (List.length_filter_le _ _) le_rfl

theorem mem_firstOccDedup (l : List ℤ) (x : ℤ) :
    x ∈ firstOccDedup l ↔ x ∈ l := by
  cases l with
  | nil => rw [firstOccDedup_nil]
  | cons d ds =>
    rw [firstOccDedup_cons]
    have ih := mem_firstOccDedup (ds.filter fun y => y ≠ d) x
    by_cases hx : x = d
    · subst hx; simp
    · simp only [List.mem_cons, ih, List.mem_filter]
      simp [hx]
termination_by l.length
decreasing_by
  simp only [List.length_cons]
  exact Nat.lt_succ_of_le (List.length_filter_le _ _)

theorem nodup_firstOccDedup (l : List ℤ) : (firstOccDedup l).Nodup := by
  cases l with
  | nil => rw [firstOccDedup_nil]; exact List.nodup_nil
  | cons d ds =>
    rw [firstOccDedup_cons, List.nodup_cons]
    constructor
    · intro hmem
      rw [mem_firstOccDedup] at hmem
      rcases List.mem_filter.mp hmem with ⟨_, hne⟩
      simp at hne
    · exact nodup_firstOccDedup (ds.filter fun y => y ≠ d)
termination_by l.length
decreasing_by
  simp only [List.length_cons]
  exact Nat.lt_succ_of_le (List.length_filter_le _ _)

/-! ### Structure of successful `shp_to_isochrones` results -/

theorem except_bind_ok2 {ε α β : Type} {m : Except ε α} {f : α → Except ε β}
    {b : β} (h : (m >>= f) = .ok b) : ∃ a, m = .ok a ∧ f a = .ok b := by
  cases m with
  | error e =>
    simp only [Bind.bind, Except.bind] at h
    cases h
  | ok a => exact ⟨a, rfl, h⟩

theorem iterate_isochrones_ok_length (route : Route) (coords : List (ℚ × ℚ))
    (duration : Duration) (swap_xy : Bool) (polys : List Polygon)
    (h : iterate_isochrones route coords duration swap_xy = .ok polys) :
    polys.length = coords.length := by
  rw [iterate_isochrones] at h
  rcases except_bind_ok2 h with ⟨raw, hraw, h2⟩
  rcases except_bind_ok2 h2 with ⟨fixed, hfixed, h3⟩
  have hpolys : polys = fixed.map fun x =>
      if swap_xy then (⟨x.map fun p => (p.2, p.1)⟩ : Polygon)
      else ⟨x.map fun p => (p.1, p.2)⟩ := by
    cases h3
    rfl
  subst hpolys
  rw [List.length_map]
  rw [check_isochrones] at hfixed
  rw [mapE_ok_length _ raw fixed hfixed]
  exact mapE_ok_length _ coords raw hraw

theorem buildWide_map_pair (gdf : List GeoRow) (d : ℤ) (polys : List Polygon)
    (h : polys.length = gdf.length) :
    (buildWide gdf d polys).map (fun row => (row.id, row.duration)) =
      gdf.map fun r => (r.id, d) := by
  induction gdf generalizing polys with
  | nil => rfl
  | cons r rs ih =>
    cases polys with
    | nil => simp at h
    | cons p ps =>
      simp only [buildWide, List.zipWith_cons_cons, List.map_cons] at *
      congr 1
      exact ih ps (by simp at h; omega)

theorem buildLong_map_pair (gdf : List GeoRow) (swap_xy : Bool) (d : ℤ)
    (polys : List Polygon) (h : polys.length = gdf.length) :
    (buildLong gdf swap_xy d polys).map (fun row => (row.id, row.duration)) =
      gdf.map fun r => (r.id, d) := by
  induction gdf generalizing polys with
  | nil => rfl
  | cons r rs ih =>
    cases polys with
    | nil => simp at h
    | cons p ps =>
      simp only [buildLong, List.zipWith_cons_cons, List.map_cons] at *
      congr 1
      exact ih ps (by simp at h; omega)

theorem mapE_results_lookup (route : Route) (coords : List (ℚ × ℚ))
    (swap_xy : Bool) (ds : List ℤ) (results : List (ℤ × List Polygon))
    (h : mapE (fun len => (iterate_isochrones route coords (.int len) swap_xy).map
        (fun ps => (len, ps))) ds = .ok results) :
    ∀ d ∈ ds, ∃ polys, lookupD d results = some polys ∧
      iterate_isochrones route coords (.int d) swap_xy = .ok polys := by
  induction ds generalizing results with
  | nil => intro d hd; cases hd
  | cons len rest ih =>
    rcases mapE_cons_ok h with ⟨b, rtail, hb, htail, rfl⟩
    rcases except_map_ok hb with ⟨ps, hps, rfl⟩
    intro d hd
    by_cases hdl : len = d
    · subst hdl
      exact ⟨ps, by simp [lookupD], hps⟩
    · have hd' : d ∈ rest := by
        rcases List.mem_cons.mp hd with rfl | h' 
        · exact absurd rfl hdl
        · exact h'
      rcases ih rtail htail d hd' with ⟨polys, hl, hit⟩
      exact ⟨polys, by simp [lookupD, hdl, hl], hit⟩

theorem flatMap_congr_mem {α β : Type} {l : List α} {f g : α → List β}
    (h : ∀ a ∈ l, f a = g a) : l.flatMap f = l.flatMap g := by
  induction l with
  | nil => rfl
  | cons a as ih =>
    simp only [List.flatMap_cons]
    rw [h a (List.mem_cons_self a as), ih fun x hx => h x (List.mem_cons_of_mem a hx)]

theorem shp_ok_pairs (route : Route) (c : List GeoRow) (dur : Duration)
    (rows : List OutRow) (h : shp_to_isochrones route c dur true = .ok rows) :
    rows.map (fun row => (row.id, row.duration)) =
      (outDurs dur).flatMap fun d => c.map fun r => (r.id, d) := by
  cases dur with
  | int d =>
    simp only [shp_to_isochrones] at h
    rcases except_map_ok h with ⟨polys, hpolys, rfl⟩
    have hlen : polys.length = c.length := by
      have := iterate_isochrones_ok_length _ _ _ _ _ hpolys
      simpa [get_centroids] using this
    rw [outDurs]
    simp only [List.flatMap_cons, List.flatMap_nil, List.append_nil]
    exact buildWide_map_pair c d polys hlen
  | list ds =>
    by_cases hlen1 : ds.length = 1
    · rcases List.length_eq_one.mp hlen1 with ⟨d0, rfl⟩
      simp only [shp_to_isochrones, List.length_singleton, if_pos] at h
      by_cases hc : 1 = c.length
      · rw [if_pos hc] at h
        rcases except_map_ok h with ⟨polys, hpolys, rfl⟩
        have hlen : polys.length = c.length := by
          have := iterate_isochrones_ok_length _ _ _ _ _ hpolys
          simpa [get_centroids] using this
        rw [outDurs]
        simp only [List.length_singleton, if_pos, List.flatMap_cons,
          List.flatMap_nil, List.append_nil]
        exact buildWide_map_pair c d0 polys hlen
      · rw [if_neg hc] at h
        cases h
    · simp only [shp_to_isochrones, if_neg hlen1] at h
      rcases except_bind_ok2 h with ⟨results, hres, h2⟩
      have hrows : rows = (firstOccDedup ds).flatMap fun d =>
          match lookupD d results with
          | some polys => buildLong c true d polys
          | none => [] := by
        cases h2
        rfl
      subst hrows
      rw [outDurs, if_neg hlen1, List.map_flatMap]
      apply flatMap_congr_mem
      intro d hd
      have hd' : d ∈ ds := (mem_firstOccDedup ds d).mp hd
      rcases mapE_results_lookup route (get_centroids c) true ds results hres d hd'
        with ⟨polys, hl, hit⟩
      rw [hl]
      have hlen : polys.length = c.length := by
        have := iterate_isochrones_ok_length _ _ _ _ _ hit
        simpa [get_centroids] using this
      exact buildLong_map_pair c true d polys hlen

theorem sum_ite_eq_mem (l : List ℤ) (d : ℤ) (k : ℕ) (hn : l.Nodup) :
    (l.map fun x => if x = d then k else 0).sum = if d ∈ l then k else 0 := by
  induction l with
  | nil => simp
  | cons a as ih =>
    rw [List.nodup_cons] at hn
    simp only [List.map_cons, List.sum_cons]
    by_cases ha : a = d
    · subst ha
      have hz : (as.map fun x => if x = a then k else 0).sum = 0 := by
        apply List.sum_eq_zero
        intro y hy
        rcases List.mem_map.mp hy with ⟨x, hx, rfl⟩
        have : x ≠ a := fun hxa => hn.1 (hxa ▸ hx)
        simp [this]
      simp [hz]
    · rw [if_neg ha, ih hn.2, Nat.zero_add]
      have hmem : (d ∈ a :: as) ↔ (d ∈ as) := by
        simp only [List.mem_cons]
        constructor
        · rintro (rfl | h3)
          · exact absurd rfl ha
          · exact h3
        · exact Or.inr
      simp only [hmem]

/-- Counting a successful chunk result: each requested output duration
block contributes one row per chunk row with that row's identifier. -/
theorem shp_ok_countIdDur (route : Route) (c : List GeoRow) (dur : Duration)
    (rows : List OutRow) (h : shp_to_isochrones route c dur true = .ok rows)
    (z : PyScalar) (d : ℤ) :
    countIdDur rows z d =
      if d ∈ outDurs dur then c.countP (fun r => decide (r.id = z)) else 0 := by
  have h1 : countIdDur rows z d =
      (rows.map fun row => (row.id, row.duration)).countP
        fun q => decide (q.1 = z ∧ q.2 = d) := by
    rw [List.countP_map]
    rfl
  rw [h1, shp_ok_pairs route c dur rows h, List.countP_flatMap]
  have h2 : ∀ d' : ℤ,
      ((List.countP fun q => decide (q.1 = z ∧ q.2 = d)) ∘
        fun d' => c.map fun r => (r.id, d')) d' =
      if d' = d then c.countP (fun r => decide (r.id = z)) else 0 := by
    intro d'
    simp only [Function.comp_apply, List.countP_map]
    by_cases hdd : d' = d
    · subst hdd
      rw [if_pos rfl]
      apply List.countP_congr
      intro r _
      simp
    · rw [if_neg hdd]
      rw [List.countP_eq_zero]
      intro r _
      simp [hdd]
  have hnodup : (outDurs dur).Nodup := by
    cases dur with
    | int d0 => simp [outDurs]
    | list ds =>
      rw [outDurs]
      by_cases hlen1 : ds.length = 1
      · rcases List.length_eq_one.mp hlen1 with ⟨d0, rfl⟩
        simp
      · rw [if_neg hlen1]
        exact nodup_firstOccDedup ds
  calc (List.map ((List.countP fun q => decide (q.1 = z ∧ q.2 = d)) ∘
        fun d' => c.map fun r => (r.id, d')) (outDurs dur)).sum
      = ((outDurs dur).map fun d' =>
          if d' = d then c.countP (fun r => decide (r.id = z)) else 0).sum := by
        rw [List.map_congr_left fun d' _ => h2 d']
    _ = if d ∈ outDurs dur then c.countP (fun r => decide (r.id = z)) else 0 :=
        sum_ite_eq_mem _ d _ hnodup

/-! ### Lemmas about `runChunks` and the `isochrone_batch` loop -/

theorem runChunks_nil (route : Route) (dur : Duration) (disk : List OutRow) :
    runChunks route dur [] disk = (disk, none) := rfl

theorem runChunks_cons_ok {route : Route} {dur : Duration} {c : List GeoRow}
    {rows : List OutRow} (cs : List (List GeoRow)) (disk : List OutRow)
    (h : shp_to_isochrones route c dur true = .ok rows) :
    runChunks route dur (c :: cs) disk = runChunks route dur cs (disk ++ rows) := by
  simp only [runChunks, h]

theorem runChunks_cons_err {route : Route} {dur : Duration} {c : List GeoRow}
    {e : PyError} (cs : List (List GeoRow)) (disk : List OutRow)
    (h : shp_to_isochrones route c dur true = .error e) :
    runChunks route dur (c :: cs) disk = (disk, some e) := by
  simp only [runChunks, h]

theorem runChunks_append_ok {route : Route} {dur : Duration}
    {l₁ : List (List GeoRow)} {blocks : List (List OutRow)}
    (l₂ : List (List GeoRow)) (disk : List OutRow)
    (h : mapE (fun c => shp_to_isochrones route c dur true) l₁ = .ok blocks) :
    runChunks route dur (l₁ ++ l₂) disk =
      runChunks route dur l₂ (disk ++ blocks.flatten) := by
  induction l₁ generalizing disk blocks with
  | nil =>
    rw [mapE_nil] at h
    cases h
    simp
  | cons c cs ih =>
    rcases mapE_cons_ok h with ⟨rows, rest, hc, hrest, rfl⟩
    rw [List.cons_append, runChunks_cons_ok _ _ hc, ih _ hrest]
    simp [List.append_assoc]

theorem runChunks_ok_inv (route : Route) (dur : Duration)
    (cs : List (List GeoRow)) (disk : List OutRow)
    (h : (runChunks route dur cs disk).2 = none) :
    ∃ blocks, mapE (fun c => shp_to_isochrones route c dur true) cs = .ok blocks ∧
      (runChunks route dur cs disk).1 = disk ++ blocks.flatten := by
  induction cs generalizing disk with
  | nil => exact ⟨[], rfl, by simp [runChunks_nil]⟩
  | cons c cs ih =>
    cases hc : shp_to_isochrones route c dur true with
    | error e =>
      rw [runChunks_cons_err _ _ hc] at h
      cases h
    | ok rows =>
      rw [runChunks_cons_ok _ _ hc] at h ⊢
      rcases ih (disk ++ rows) h with ⟨blocks, hm, hd⟩
      exact ⟨rows :: blocks, mapE_cons_eq hc hm, by rw [hd]; simp [List.append_assoc]⟩

theorem isochrone_batch_ok_bs (route : Route) (gdf : List GeoRow)
    (duration : Duration) (bs : ℕ) (file : Option (List OutRow))
    (h : (isochrone_batch route gdf duration bs file).err = none) : bs ≠ 0 := by
  intro hbs
  subst hbs
  cases file with
  | none => simp [isochrone_batch] at h
  | some init =>
    cases h0 : astypeIdCol gdf with
    | error e => simp [isochrone_batch, h0] at h
    | ok gdf' => simp [isochrone_batch, h0] at h

theorem isochrone_batch_unfold (route : Route) (gdf : List GeoRow)
    (duration : Duration) (bs : ℕ) (file : Option (List OutRow))
    (h_int : ∀ r ∈ gdf, ∃ z, r.id = .int z) (hbs : bs ≠ 0) :
    isochrone_batch route gdf duration bs file =
      ⟨gdf,
        (runChunks route duration
          (batch (gdfUnfinished gdf (file.getD [])) bs) (file.getD [])).1,
        (runChunks route duration
          (batch (gdfUnfinished gdf (file.getD [])) bs) (file.getD [])).2⟩ := by
  cases file with
  | none => simp [isochrone_batch, hbs, Option.getD]
  | some init => simp [isochrone_batch, astypeIdCol_int_id gdf h_int, hbs, Option.getD]

theorem isochrone_batch_ok_inv (route : Route) (gdf : List GeoRow)
    (duration : Duration) (bs : ℕ) (file : Option (List OutRow))
    (h_int : ∀ r ∈ gdf, ∃ z, r.id = .int z)
    (h : (isochrone_batch route gdf duration bs file).err = none) :
    ∃ blocks,
      mapE (fun c => shp_to_isochrones route c duration true)
          (batch (gdfUnfinished gdf (file.getD [])) bs) = .ok blocks ∧
      isochrone_batch route gdf duration bs file =
        ⟨gdf, file.getD [] ++ blocks.flatten, none⟩ := by
  have hbs := isochrone_batch_ok_bs route gdf duration bs file h
  rw [isochrone_batch_unfold route gdf duration bs file h_int hbs] at h ⊢
  have h2 : (runChunks route duration
      (batch (gdfUnfinished gdf (file.getD [])) bs) (file.getD [])).2 = none := h
  rcases runChunks_ok_inv route duration _ _ h2 with ⟨blocks, hm, hd⟩
  exact ⟨blocks, hm, by rw [RunResult.mk.injEq]; exact ⟨rfl, hd, h2⟩⟩

/-! ### Lemmas about `gdfUnfinished` -/

theorem outIds_append (out1 out2 : List OutRow) :
    outIds (out1 ++ out2) = outIds out1 ++ outIds out2 := by
  simp [outIds]

theorem gdfUnfinished_eq_filter (gdf : List GeoRow) (out : List OutRow) :
    gdfUnfinished gdf out = gdf.filter fun r => decide (r.id ∉ outIds out) := by
  rw [gdfUnfinished]
  apply List.filter_congr
  intro r hr
  have hiff : (r.id ∈ unfinishedIdx gdf out) ↔ (r.id ∉ outIds out) := by
    rw [unfinishedIdx, List.mem_filter]
    constructor
    · rintro ⟨_, hdec⟩
      simpa using hdec
    · intro hno
      exact ⟨List.mem_map.mpr ⟨r, hr, rfl⟩, by simpa using hno⟩
  simp [hiff]

theorem gdfUnfinished_append (gdf : List GeoRow) (out1 out2 : List OutRow) :
    gdfUnfinished gdf (out1 ++ out2) =
      (gdfUnfinished gdf out1).filter fun r => decide (r.id ∉ outIds out2) := by
  rw [gdfUnfinished_eq_filter, gdfUnfinished_eq_filter, List.filter_filter]
  apply List.filter_congr
  intro r _
  by_cases h1 : r.id ∈ outIds out1 <;> by_cases h2 : r.id ∈ outIds out2 <;>
    simp [outIds_append, h1, h2]

theorem gdfUnfinished_eq_nil (gdf : List GeoRow) (out : List OutRow)
    (h : ∀ r ∈ gdf, r.id ∈ outIds out) : gdfUnfinished gdf out = [] := by
  rw [gdfUnfinished_eq_filter, List.filter_eq_nil_iff]
  intro r hr
  simp [h r hr]

theorem mapE_ok_forall {α β ε : Type} {f : α → Except ε β} {l : List α}
    {bs : List β} (h : mapE f l = .ok bs) : ∀ a ∈ l, ∃ b ∈ bs, f a = .ok b := by
  induction l generalizing bs with
  | nil => intro a ha; cases ha
  | cons x xs ih =>
    rcases mapE_cons_ok h with ⟨b, rest, hx, hrest, rfl⟩
    intro a ha
    rcases List.mem_cons.mp ha with rfl | ha'
    · exact ⟨b, List.mem_cons_self b rest, hx⟩
    · rcases ih hrest a ha' with ⟨b', hb', hfb'⟩
      exact ⟨b', List.mem_cons_of_mem b hb', hfb'⟩

theorem firstOccDedup_ne_nil (l : List ℤ) (h : l ≠ []) : firstOccDedup l ≠ [] := by
  cases l with
  | nil => exact absurd rfl h
  | cons d ds => rw [firstOccDedup_cons]; exact List.cons_ne_nil _ _

theorem outDurs_ne_nil (dur : Duration) (h : durList dur ≠ []) :
    outDurs dur ≠ [] := by
  cases dur with
  | int d => exact List.cons_ne_nil _ _
  | list ds =>
    rw [durList] at h
    rw [outDurs]
    by_cases hlen : ds.length = 1
    · rw [if_pos hlen]; exact h
    · rw [if_neg hlen]; exact firstOccDedup_ne_nil ds h

/-- After a successful chunk, every identifier of the chunk's rows occurs
in the appended output rows, provided at least one duration was
requested. -/
theorem shp_ok_mem_outIds (route : Route) (c : List GeoRow) (dur : Duration)
    (rows : List OutRow) (h : shp_to_isochrones route c dur true = .ok rows)
    (h_dur : durList dur ≠ []) (r : GeoRow) (hr : r ∈ c) :
    r.id ∈ outIds rows := by
  rcases List.exists_mem_of_ne_nil _ (outDurs_ne_nil dur h_dur) with ⟨d0, hd0⟩
  have hcount := shp_ok_countIdDur route c dur rows h r.id d0
  rw [if_pos hd0] at hcount
  have hpos : 0 < List.countP (fun q => decide (q.id = r.id ∧ q.duration = d0)) rows := by
    rw [countIdDur] at hcount
    rw [hcount, List.countP_pos_iff]
    exact ⟨r, hr, by simp⟩
  rcases List.countP_pos_iff.mp hpos with ⟨row, hrow, hprop⟩
  simp only [decide_eq_true_eq] at hprop
  exact List.mem_map.mpr ⟨row, hrow, hprop.1⟩

/-- C2: running the Batch Resumer a second time immediately after a fully
successful run, with the same input table, routing oracle, duration(s)
(at least one requested, per the contract), batch size and output path,
computes an empty unfinished set and appends no rows: the second run
returns the first run's output file unchanged, with no error. -/
theorem isochrone_batch_idempotent (route : Route) (gdf : List GeoRow)
    (duration : Duration) (bs : ℕ) (file : Option (List OutRow))
    (h_int : ∀ r ∈ gdf, ∃ z, r.id = .int z)
    (h_dur : durList duration ≠ [])
    (h_ok : (isochrone_batch route gdf duration bs file).err = none) :
    gdfUnfinished gdf (isochrone_batch route gdf duration bs file).disk = [] ∧
    isochrone_batch route gdf duration bs
        (some (isochrone_batch route gdf duration bs file).disk) =
      ⟨gdf, (isochrone_batch route gdf duration bs file).disk, none⟩ := by
  have hbs := isochrone_batch_ok_bs route gdf duration bs file h_ok
  rcases isochrone_batch_ok_inv route gdf duration bs file h_int h_ok
    with ⟨blocks, hm, heq⟩
  have hall : ∀ r ∈ gdf, r.id ∈ outIds (file.getD [] ++ blocks.flatten) := by
    intro r hr
    rw [outIds_append, List.mem_append]
    by_cases hin : r.id ∈ outIds (file.getD [])
    · exact Or.inl hin
    · right
      have hunf : r ∈ gdfUnfinished gdf (file.getD []) := by
        rw [gdfUnfinished_eq_filter, List.mem_filter]
        exact ⟨hr, by simp [hin]⟩
      have : r ∈ (batch (gdfUnfinished gdf (file.getD [])) bs).flatten := by
        rw [batch_flatten bs hbs]
        exact hunf
      rcases List.mem_flatten.mp this with ⟨c, hc, hrc⟩
      rcases mapE_ok_forall hm c hc with ⟨rows, hrows, hok⟩
      have := shp_ok_mem_outIds route c duration rows hok h_dur r hrc
      rcases List.mem_map.mp this with ⟨row, hrow, hrowid⟩
      exact List.mem_map.mpr ⟨row, List.mem_flatten.mpr ⟨rows, hrows, hrow⟩, hrowid⟩
  have hnil : gdfUnfinished gdf (file.getD [] ++ blocks.flatten) = [] :=
    gdfUnfinished_eq_nil _ _ hall
  constructor
  · rw [heq]
    exact hnil
  · rw [heq]
    rw [isochrone_batch_unfold route gdf duration bs
      (some (file.getD [] ++ blocks.flatten)) h_int hbs]
    simp only [Option.getD_some, hnil]
    rw [batch_nil, runChunks_nil]

/-- C2 witness: one integer-identified record, scalar duration, batch size
1, no pre-existing output file; the second run leaves the file unchanged. -/
theorem isochrone_batch_idempotent_witness :
    ((isochrone_batch (fun _ _ => .ok []) [⟨.int 1, (0, 0)⟩] (.int 15) 1
        none).err = none) ∧
    (gdfUnfinished [⟨.int 1, (0, 0)⟩]
        (isochrone_batch (fun _ _ => .ok []) [⟨.int 1, (0, 0)⟩] (.int 15) 1
          none).disk = [] ∧
      isochrone_batch (fun _ _ => .ok []) [⟨.int 1, (0, 0)⟩] (.int 15) 1
          (some (isochrone_batch (fun _ _ => .ok []) [⟨.int 1, (0, 0)⟩]
            (.int 15) 1 none).disk) =
        ⟨[⟨.int 1, (0, 0)⟩],
          (isochrone_batch (fun _ _ => .ok []) [⟨.int 1, (0, 0)⟩] (.int 15) 1
            none).disk, none⟩) :=
  ⟨by decide,
    isochrone_batch_idempotent (fun _ _ => .ok []) [⟨.int 1, (0, 0)⟩]
      (.int 15) 1 none
      (by intro r hr; rcases List.mem_singleton.mp hr with rfl; exact ⟨1, rfl⟩)
      (by decide) (by decide)⟩

/-! ### Counting lemmas for the output store, and C1 -/

theorem countIdDur_append (o1 o2 : List OutRow) (z : PyScalar) (d : ℤ) :
    countIdDur (o1 ++ o2) z d = countIdDur o1 z d + countIdDur o2 z d :=
  List.countP_append _ o1 o2

theorem countIdDur_flatten (L : List (List OutRow)) (z : PyScalar) (d : ℤ) :
    countIdDur L.flatten z d = (L.map fun rows => countIdDur rows z d).sum :=
  List.countP_flatten _ L

theorem countIdDur_eq_zero_of_not_mem (out : List OutRow) (z : PyScalar) (d : ℤ)
    (h : z ∉ outIds out) : countIdDur out z d = 0 := by
  rw [countIdDur, List.countP_eq_zero]
  intro row hrow
  simp only [decide_eq_true_eq, not_and]
  intro hid _
  exact h (List.mem_map.mpr ⟨row, hrow, hid⟩)

theorem mem_outIds_of_countIdDur_eq_one (out : List OutRow) (z : PyScalar)
    (d : ℤ) (h : countIdDur out z d = 1) : z ∈ outIds out := by
  have hpos : 0 < countIdDur out z d := by omega
  rw [countIdDur, List.countP_pos_iff] at hpos
  rcases hpos with ⟨row, hrow, hprop⟩
  simp only [decide_eq_true_eq] at hprop
  exact List.mem_map.mpr ⟨row, hrow, hprop.1⟩

theorem mem_outDurs (dur : Duration) (d : ℤ) :
    d ∈ outDurs dur ↔ d ∈ durList dur := by
  cases dur with
  | int d0 => rfl
  | list ds =>
    rw [outDurs, durList]
    by_cases hlen : ds.length = 1
    · rw [if_pos hlen]
    · rw [if_neg hlen]
      exact mem_firstOccDedup ds d

theorem countP_eq_one_of_nodup_mem (l : List PyScalar) (hn : l.Nodup)
    (a : PyScalar) (ha : a ∈ l) :
    l.countP (fun x => decide (x = a)) = 1 := by
  induction l with
  | nil => cases ha
  | cons x xs ih =>
    rw [List.nodup_cons] at hn
    rcases List.mem_cons.mp ha with rfl | ha'
    · rw [List.countP_cons_of_pos _ _ (by simp)]
      have hz : xs.countP (fun x => decide (x = a)) = 0 := by
        rw [List.countP_eq_zero]
        intro y hy
        simp only [decide_eq_true_eq]
        intro hya
        exact hn.1 (hya ▸ hy)
      omega
    · have hxa : x ≠ a := fun hxa => hn.1 (hxa ▸ ha')
      rw [List.countP_cons_of_neg _ _ (by simp [hxa])]
      exact ih hn.2 ha'

/-- Sum over all successful chunk results of the rows counted for a given
(identifier, duration) pair: one per occurrence of the identifier among
the chunked rows, when the duration was requested. -/
theorem blocks_countIdDur (route : Route) (dur : Duration)
    (chunks : List (List GeoRow)) (blocks : List (List OutRow))
    (hm : mapE (fun c => shp_to_isochrones route c dur true) chunks = .ok blocks)
    (z : PyScalar) (d : ℤ) :
    (blocks.map fun rows => countIdDur rows z d).sum =
      if d ∈ outDurs dur
      then chunks.flatten.countP fun r => decide (r.id = z)
      else 0 := by
  induction chunks generalizing blocks with
  | nil =>
    rw [mapE_nil] at hm
    cases hm
    simp
  | cons c cs ih =>
    rcases mapE_cons_ok hm with ⟨rows, rest, hc, hrest, rfl⟩
    rw [List.map_cons, List.sum_cons, shp_ok_countIdDur route c dur rows hc z d,
      ih rest hrest, List.flatten_cons, List.countP_append]
    by_cases hd : d ∈ outDurs dur <;> simp [hd]

/-- C1: completeness of a fully successful run.  Hypotheses: the
matching-identifier column holds integers and is unique; the starting
output file either does not exist or is a well-formed partial file (each
input identifier either appears exactly once per requested duration, or
not at all); the run reports no error.  Conclusion: afterwards the output
file contains exactly one row per (identifier, duration) pair, for every
input identifier and every requested duration — no duplicates and no
omissions. -/
theorem isochrone_batch_completeness (route : Route) (gdf : List GeoRow)
    (duration : Duration) (bs : ℕ) (file : Option (List OutRow))
    (h_int : ∀ r ∈ gdf, ∃ z, r.id = .int z)
    (h_uniq : (gdf.map GeoRow.id).Nodup)
    (h_file : file = none ∨ ∃ init, file = some init ∧ ∀ r ∈ gdf,
        (∀ d ∈ durList duration, countIdDur init r.id d = 1) ∨ r.id ∉ outIds init)
    (h_ok : (isochrone_batch route gdf duration bs file).err = none) :
    ∀ r ∈ gdf, ∀ d ∈ durList duration,
      countIdDur (isochrone_batch route gdf duration bs file).disk r.id d = 1 := by
  have hbs := isochrone_batch_ok_bs route gdf duration bs file h_ok
  rcases isochrone_batch_ok_inv route gdf duration bs file h_int h_ok
    with ⟨blocks, hm, heq⟩
  have hfile' : ∀ r ∈ gdf,
      (∀ d ∈ durList duration, countIdDur (file.getD []) r.id d = 1) ∨
        r.id ∉ outIds (file.getD []) := by
    rcases h_file with rfl | ⟨init, rfl, hwf⟩
    · intro r _
      right
      simp [outIds]
    · exact hwf
  intro r hr d hd
  rw [heq]
  show countIdDur (file.getD [] ++ blocks.flatten) r.id d = 1
  rw [countIdDur_append, countIdDur_flatten,
    blocks_countIdDur route duration _ blocks hm r.id d,
    if_pos ((mem_outDurs duration d).mpr hd), batch_flatten bs hbs,
    gdfUnfinished_eq_filter, List.countP_filter]
  rcases hfile' r hr with hA | hB
  · have h1 : countIdDur (file.getD []) r.id d = 1 := hA d hd
    have hmem : r.id ∈ outIds (file.getD []) :=
      mem_outIds_of_countIdDur_eq_one _ _ _ h1
    have h0 : (gdf.countP fun a =>
        decide (a.id = r.id) && decide (a.id ∉ outIds (file.getD []))) = 0 := by
      rw [List.countP_eq_zero]
      intro q _
      simp only [Bool.and_eq_true, decide_eq_true_eq, not_and]
      intro hq
      simp [hq, hmem]
    omega
  · have h0 : countIdDur (file.getD []) r.id d = 0 :=
      countIdDur_eq_zero_of_not_mem _ _ _ hB
    have h1 : (gdf.countP fun a =>
        decide (a.id = r.id) && decide (a.id ∉ outIds (file.getD []))) =
        gdf.countP fun a => decide (a.id = r.id) := by
      apply List.countP_congr
      intro q _
      simp only [Bool.and_eq_true, decide_eq_true_eq]
      constructor
      · exact fun hq => hq.1
      · intro hq
        exact ⟨hq, hq ▸ hB⟩
    have h2 : (gdf.countP fun a => decide (a.id = r.id)) = 1 := by
      have hmap : (gdf.countP fun a => decide (a.id = r.id)) =
          (gdf.map GeoRow.id).countP fun x => decide (x = r.id) := by
        rw [List.countP_map]
        rfl
      rw [hmap]
      exact countP_eq_one_of_nodup_mem _ h_uniq r.id
        (List.mem_map.mpr ⟨r, hr, rfl⟩)
    omega

/-- C1 witness: two integer-identified records, scalar duration 15, batch
size 1, no pre-existing file; each identifier ends up with exactly one row
for duration 15. -/
theorem isochrone_batch_completeness_witness :
    ((isochrone_batch (fun _ _ => .ok []) [⟨.int 1, (0, 0)⟩, ⟨.int 2, (0, 0)⟩]
        (.int 15) 1 none).err = none) ∧
    (∀ r ∈ [(⟨.int 1, (0, 0)⟩ : GeoRow), ⟨.int 2, (0, 0)⟩],
      ∀ d ∈ durList (.int 15),
      countIdDur (isochrone_batch (fun _ _ => .ok [])
          [⟨.int 1, (0, 0)⟩, ⟨.int 2, (0, 0)⟩] (.int 15) 1 none).disk r.id d = 1) :=
  ⟨by decide,
    isochrone_batch_completeness (fun _ _ => .ok [])
      [⟨.int 1, (0, 0)⟩, ⟨.int 2, (0, 0)⟩] (.int 15) 1 none
      (by
        intro r hr
        rcases List.mem_cons.mp hr with rfl | hr'
        · exact ⟨1, rfl⟩
        · rcases List.mem_singleton.mp hr' with rfl
          exact ⟨2, rfl⟩)
      (by decide) (Or.inl rfl) (by decide)⟩

/-! ### Re-chunking lemmas and C3 -/

theorem batch_flatten_drop {α} (n : ℕ) (hn : n ≠ 0) (l : List α) (j : ℕ) :
    ((batch l n).drop j).flatten = l.drop (j * n) := by
  induction j generalizing l with
  | zero => simp [batch_flatten n hn]
  | succ j ih =>
    by_cases hl : l = []
    · subst hl
      rw [batch_nil]
      simp
    · rw [batch_cons n hn l hl, List.drop_succ_cons, ih (l.drop n),
        List.drop_drop]
      congr 1
      ring

theorem batch_drop_rechunk {α} (n : ℕ) (hn : n ≠ 0) (l : List α) (j : ℕ) :
    batch (l.drop (j * n)) n = (batch l n).drop j := by
  induction j generalizing l with
  | zero => simp
  | succ j ih =>
    by_cases hl : l = []
    · subst hl
      rw [batch_nil]
      simp [batch_nil]
    · rw [batch_cons n hn l hl, List.drop_succ_cons, ← ih (l.drop n),
        List.drop_drop]
      congr 2
      ring

theorem mapE_ok_forall_rev {α β ε : Type} {f : α → Except ε β} {l : List α}
    {bs : List β} (h : mapE f l = .ok bs) : ∀ b ∈ bs, ∃ a ∈ l, f a = .ok b := by
  induction l generalizing bs with
  | nil =>
    rw [mapE_nil] at h
    cases h
    intro b hb
    cases hb
  | cons x xs ih =>
    rcases mapE_cons_ok h with ⟨b0, rest, hx, hrest, rfl⟩
    intro b hb
    rcases List.mem_cons.mp hb with rfl | hb'
    · exact ⟨x, List.mem_cons_self x xs, hx⟩
    · rcases ih hrest b hb' with ⟨a, ha, hfa⟩
      exact ⟨a, List.mem_cons_of_mem x ha, hfa⟩

/-- Every identifier of a successful chunk-result block comes from the
corresponding chunk. -/
theorem shp_ok_outIds_sub (route : Route) (c : List GeoRow) (dur : Duration)
    (rows : List OutRow) (h : shp_to_isochrones route c dur true = .ok rows)
    (z : PyScalar) (hz : z ∈ outIds rows) : z ∈ c.map GeoRow.id := by
  rcases List.mem_map.mp hz with ⟨row, hrow, rfl⟩
  have hpair : (row.id, row.duration) ∈
      (outDurs dur).flatMap fun d => c.map fun r => (r.id, d) := by
    rw [← shp_ok_pairs route c dur rows h]
    exact List.mem_map.mpr ⟨row, hrow, rfl⟩
  rcases List.mem_flatMap.mp hpair with ⟨d', _, hmem⟩
  rcases List.mem_map.mp hmem with ⟨r', hr'c, hpair'⟩
  have : r'.id = row.id := congrArg Prod.fst hpair'
  exact this ▸ List.mem_map.mpr ⟨r', hr'c, rfl⟩

/-- Filtering the full unfinished row list by "identifier not yet in the
rows appended by the first `j` chunks" leaves exactly the rows of the
remaining chunks, provided identifiers are unique. -/
theorem filter_drop_chunks (route : Route) (dur : Duration)
    (chunks : List (List GeoRow)) (j : ℕ) (blocks : List (List OutRow))
    (hm : mapE (fun c => shp_to_isochrones route c dur true) (chunks.take j)
      = .ok blocks)
    (h_dur : durList dur ≠ [])
    (hnodup : (chunks.flatten.map GeoRow.id).Nodup) :
    chunks.flatten.filter (fun r => decide (r.id ∉ outIds blocks.flatten)) =
      (chunks.drop j).flatten := by
  have hTD : chunks.flatten = (chunks.take j).flatten ++ (chunks.drop j).flatten := by
    rw [← List.flatten_append, List.take_append_drop]
  have hnodup' : ((chunks.take j).flatten.map GeoRow.id ++
      (chunks.drop j).flatten.map GeoRow.id).Nodup := by
    rw [← List.map_append, ← List.flatten_append, List.take_append_drop]
    exact hnodup
  have hdisj := List.disjoint_of_nodup_append hnodup'
  have hcoverT : ∀ r ∈ (chunks.take j).flatten, r.id ∈ outIds blocks.flatten := by
    intro r hr
    rcases List.mem_flatten.mp hr with ⟨c, hc, hrc⟩
    rcases mapE_ok_forall hm c hc with ⟨rows, hrows, hok⟩
    have := shp_ok_mem_outIds route c dur rows hok h_dur r hrc
    rcases List.mem_map.mp this with ⟨row, hrow, hrowid⟩
    exact List.mem_map.mpr ⟨row, List.mem_flatten.mpr ⟨rows, hrows, hrow⟩, hrowid⟩
  have hcoverB : ∀ z ∈ outIds blocks.flatten,
      z ∈ (chunks.take j).flatten.map GeoRow.id := by
    intro z hz
    rcases List.mem_map.mp hz with ⟨row, hrowmem, rfl⟩
    rcases List.mem_flatten.mp hrowmem with ⟨rows, hrows, hrow⟩
    rcases mapE_ok_forall_rev hm rows hrows with ⟨c, hc, hok⟩
    have hz' : row.id ∈ c.map GeoRow.id :=
      shp_ok_outIds_sub route c dur rows hok row.id
        (List.mem_map.mpr ⟨row, hrow, rfl⟩)
    rcases List.mem_map.mp hz' with ⟨r', hr'c, hr'id⟩
    exact List.mem_map.mpr ⟨r', List.mem_flatten.mpr ⟨c, hc, hr'c⟩, hr'id⟩
  rw [hTD, List.filter_append]
  have hT : (chunks.take j).flatten.filter
      (fun r => decide (r.id ∉ outIds blocks.flatten)) = [] := by
    rw [List.filter_eq_nil_iff]
    intro r hr
    simp [hcoverT r hr]
  have hD : (chunks.drop j).flatten.filter
      (fun r => decide (r.id ∉ outIds blocks.flatten)) =
      (chunks.drop j).flatten := by
    rw [List.filter_eq_self]
    intro r hr
    simp only [decide_eq_true_eq]
    intro hin
    have hT' := hcoverB r.id hin
    exact hdisj hT' (List.mem_map.mpr ⟨r, hr, rfl⟩)
  rw [hT, hD, List.nil_append]

/-- C3: chunk atomicity under failure.  With unique integer identifiers, a
nonempty requested duration list and a positive batch size, suppose the
first `k - 1` chunks of unfinished rows succeed (producing `blocks`) and
`shp_to_isochrones` raises `e` on chunk `k` (1-indexed).  Then the run
aborts with `e`; the output file afterwards holds exactly its previous
content plus the rows of chunks `1 .. k-1` and nothing from chunk `k`;
and a re-invocation on that file computes exactly the rows of chunks
`k .. last` as unfinished and re-partitions them into exactly those same
chunks. -/
theorem isochrone_batch_chunk_atomicity (route : Route) (gdf : List GeoRow)
    (duration : Duration) (bs : ℕ) (file : Option (List OutRow)) (k : ℕ)
    (e : PyError) (blocks : List (List OutRow))
    (h_int : ∀ r ∈ gdf, ∃ z, r.id = .int z)
    (h_uniq : (gdf.map GeoRow.id).Nodup)
    (h_dur : durList duration ≠ [])
    (h_bs : bs ≠ 0)
    (hk1 : 1 ≤ k)
    (hk2 : k ≤ (batch (gdfUnfinished gdf (file.getD [])) bs).length)
    (h_pre : mapE (fun c => shp_to_isochrones route c duration true)
      ((batch (gdfUnfinished gdf (file.getD [])) bs).take (k - 1)) = .ok blocks)
    (h_fail : shp_to_isochrones route
      ((batch (gdfUnfinished gdf (file.getD [])) bs).getD (k - 1) [])
      duration true = .error e) :
    (isochrone_batch route gdf duration bs file).disk =
      file.getD [] ++ blocks.flatten ∧
    (isochrone_batch route gdf duration bs file).err = some e ∧
    gdfUnfinished gdf (isochrone_batch route gdf duration bs file).disk =
      ((batch (gdfUnfinished gdf (file.getD [])) bs).drop (k - 1)).flatten ∧
    batch (gdfUnfinished gdf (isochrone_batch route gdf duration bs file).disk) bs =
      (batch (gdfUnfinished gdf (file.getD [])) bs).drop (k - 1) := by
  have hklen : k - 1 < (batch (gdfUnfinished gdf (file.getD [])) bs).length := by
    omega
  have hdropcons : (batch (gdfUnfinished gdf (file.getD [])) bs).drop (k - 1) =
      (batch (gdfUnfinished gdf (file.getD [])) bs).getD (k - 1) [] ::
        (batch (gdfUnfinished gdf (file.getD [])) bs).drop k := by
    rw [List.getD_eq_getElem _ _ hklen, List.drop_eq_getElem_cons hklen,
      show k - 1 + 1 = k from by omega]
  have hsplit : batch (gdfUnfinished gdf (file.getD [])) bs =
      (batch (gdfUnfinished gdf (file.getD [])) bs).take (k - 1) ++
      ((batch (gdfUnfinished gdf (file.getD [])) bs).getD (k - 1) [] ::
        (batch (gdfUnfinished gdf (file.getD [])) bs).drop k) := by
    conv_lhs => rw [← List.take_append_drop (k - 1)
      (batch (gdfUnfinished gdf (file.getD [])) bs)]
    rw [hdropcons]
  have hrun : runChunks route duration
      (batch (gdfUnfinished gdf (file.getD [])) bs) (file.getD []) =
      (file.getD [] ++ blocks.flatten, some e) := by
    conv_lhs => rw [hsplit]
    rw [runChunks_append_ok _ _ h_pre, runChunks_cons_err _ _ h_fail]
  have hbatch := isochrone_batch_unfold route gdf duration bs file h_int h_bs
  have hdisk : (isochrone_batch route gdf duration bs file).disk =
      file.getD [] ++ blocks.flatten := by
    rw [hbatch]
    show (runChunks route duration
      (batch (gdfUnfinished gdf (file.getD [])) bs) (file.getD [])).1 = _
    rw [hrun]
  have herr : (isochrone_batch route gdf duration bs file).err = some e := by
    rw [hbatch]
    show (runChunks route duration
      (batch (gdfUnfinished gdf (file.getD [])) bs) (file.getD [])).2 = _
    rw [hrun]
  have hnodupU : ((gdfUnfinished gdf (file.getD [])).map GeoRow.id).Nodup :=
    List.Nodup.sublist
      (List.Sublist.map GeoRow.id
        (by rw [gdfUnfinished_eq_filter]; exact List.filter_sublist gdf))
      h_uniq
  have hnodupFl : ((batch (gdfUnfinished gdf (file.getD [])) bs).flatten.map
      GeoRow.id).Nodup := by
    rw [batch_flatten bs h_bs]
    exact hnodupU
  have hunf2 : gdfUnfinished gdf (isochrone_batch route gdf duration bs file).disk =
      ((batch (gdfUnfinished gdf (file.getD [])) bs).drop (k - 1)).flatten := by
    have hfd := filter_drop_chunks route duration
      (batch (gdfUnfinished gdf (file.getD [])) bs) (k - 1) blocks h_pre h_dur
      hnodupFl
    rw [batch_flatten bs h_bs] at hfd
    rw [hdisk, gdfUnfinished_append]
    exact hfd
  refine ⟨hdisk, herr, hunf2, ?_⟩
  rw [hunf2, batch_flatten_drop bs h_bs, batch_drop_rechunk bs h_bs]

/-- C3 witness: two records, batch size 1; the routing oracle fails on the
second record's centroid, so chunk 1 is durable, the run aborts with the
error, and a re-invocation would process exactly chunk 2. -/
theorem isochrone_batch_chunk_atomicity_witness :
    (mapE (fun c => shp_to_isochrones
        (fun o _ => if o.1 = 1 then .error .statError else .ok [])
        c (.int 15) true)
      ((batch (gdfUnfinished [⟨.int 1, (0, 0)⟩, ⟨.int 2, (1, 1)⟩] []) 1).take 1)
      = .ok [[⟨.int 1, (0, 0), 15, ⟨[]⟩⟩]]) ∧
    (shp_to_isochrones (fun o _ => if o.1 = 1 then .error .statError else .ok [])
        ((batch (gdfUnfinished [⟨.int 1, (0, 0)⟩, ⟨.int 2, (1, 1)⟩] []) 1).getD 1 [])
        (.int 15) true = .error .statError) ∧
    ((isochrone_batch (fun o _ => if o.1 = 1 then .error .statError else .ok [])
        [⟨.int 1, (0, 0)⟩, ⟨.int 2, (1, 1)⟩] (.int 15) 1 none).disk =
      [] ++ [[(⟨.int 1, (0, 0), 15, ⟨[]⟩⟩ : OutRow)]].flatten ∧
    (isochrone_batch (fun o _ => if o.1 = 1 then .error .statError else .ok [])
        [⟨.int 1, (0, 0)⟩, ⟨.int 2, (1, 1)⟩] (.int 15) 1 none).err =
      some .statError ∧
    gdfUnfinished [⟨.int 1, (0, 0)⟩, ⟨.int 2, (1, 1)⟩]
        (isochrone_batch (fun o _ => if o.1 = 1 then .error .statError else .ok [])
          [⟨.int 1, (0, 0)⟩, ⟨.int 2, (1, 1)⟩] (.int 15) 1 none).disk =
      ((batch (gdfUnfinished [⟨.int 1, (0, 0)⟩, ⟨.int 2, (1, 1)⟩] []) 1).drop 1).flatten ∧
    batch (gdfUnfinished [⟨.int 1, (0, 0)⟩, ⟨.int 2, (1, 1)⟩]
        (isochrone_batch (fun o _ => if o.1 = 1 then .error .statError else .ok [])
          [⟨.int 1, (0, 0)⟩, ⟨.int 2, (1, 1)⟩] (.int 15) 1 none).disk) 1 =
      (batch (gdfUnfinished [⟨.int 1, (0, 0)⟩, ⟨.int 2, (1, 1)⟩] []) 1).drop 1) :=
  ⟨by decide, by decide,
    isochrone_batch_chunk_atomicity
      (fun o _ => if o.1 = 1 then .error .statError else .ok [])
      [⟨.int 1, (0, 0)⟩, ⟨.int 2, (1, 1)⟩] (.int 15) 1 none 2 .statError
      [[⟨.int 1, (0, 0), 15, ⟨[]⟩⟩]]
      (by
        intro r hr
        rcases List.mem_cons.mp hr with rfl | hr'
        · exact ⟨1, rfl⟩
        · rcases List.mem_singleton.mp hr' with rfl
          exact ⟨2, rfl⟩)
      (by decide) (by decide) (by decide) (by decide) (by decide) (by decide)
      (by decide)⟩
